import Mathlib

set_option maxRecDepth 16384
set_option maxHeartbeats 1000000

/-
Verification of the AsyncPropLoader repository (a host-side loader for the
Parallax Propeller P8X32A).

The definitions below are a shallow embedding of the C++ sources:

* `ThreeBitProtocolEncoder` and its operations embed
  ThreeBitProtocolEncoder.cpp (bytes are modelled as `Nat`, the buffer as a
  `List Nat`, `uint8_t` truncation is written explicitly where the C++ code
  truncates).
* `APLoader.decode3BPByte`, `APLoader.verifyAndEncodeImage` embed
  APLoaderInternal.cpp.
* `APLoader.setBaudrate`, `APLoader.setResetDuration`,
  `APLoader.setBootWaitDuration` embed the validating setters of
  AsyncPropLoader.cpp (the stored-or-thrown outcome is an `Except`).
* `APLoader.a_performActionStages` embeds the stage sequencing of
  `AsyncPropLoader::a_performAction` (the trace of stage calls of a
  successful action).
* `APLoader.a_receiveStatus` embeds the status-poll loop of
  `AsyncPropLoader::a_receiveStatus`, with the sequence of `available()`
  outcomes abstracted as a list (`none` = no byte available yet, `some b` =
  a byte was available and `read` returned it; the end of the list = the
  timeout expires).
* `APLoader.a_transitDuration` embeds
  `AsyncPropLoader::a_transitDuration`, which computes
  `numBytes * 10000000.0f / a_baudrate` in IEEE-754 binary32 (single
  precision) arithmetic.  Floats are modelled exactly: a value is an
  unreduced fraction `(num, den)` of naturals and `round32N` performs
  round-to-nearest-even onto the binary32 grid (valid for the magnitudes
  that occur here, i.e. values in [1, 2^64), far below overflow).

Definitions named after spec wording (for refinement claims) are
`padToLongBoundary`, `bytesToWordsLE` and `decode3BPByteSpec`; they are
written from the specification text, to be compared with the embedded code.
-/

/-- State of the 3-Bit-Protocol encoder (ThreeBitProtocolEncoder.hpp):
the output buffer, the slot position `bitPos` for the next encoded pulse
within the current 8N1 frame, and the byte `currByte` being filled. -/
structure ThreeBitProtocolEncoder where
  buffer : List Nat
  bitPos : Nat
  currByte : Nat
deriving DecidableEq, Repr

namespace ThreeBitProtocolEncoder

/-- The constructor: the provided buffer is cleared, `bitPos = 0`,
`currByte = 0xff`. -/
def init : ThreeBitProtocolEncoder := { buffer := [], bitPos := 0, currByte := 0xff }

/-- Bit periods of high idle between pulses of the same long. -/
def IntraLongIdleTime : Nat := 1

/-- Bit periods of high idle between pulses of different longs. -/
def InterLongIdleTime : Nat := 2

/-- Embeds `ThreeBitProtocolEncoder::pushCurrByteIfNotEmpty`: an empty byte
(`bitPos = 0`) is not pushed; otherwise `currByte` is appended and the
state reset. -/
def pushCurrByteIfNotEmpty (s : ThreeBitProtocolEncoder) : ThreeBitProtocolEncoder :=
  if s.bitPos = 0 then s
  else { buffer := s.buffer ++ [s.currByte], bitPos := 0, currByte := 0xff }

/-- The `bitPos == 0` branch of `ThreeBitProtocolEncoder::encodeBit`:
a 0 bit extends the implicit start bit (clear bit 0 of `currByte`), a 1 bit
reuses the implicit start bit as the short pulse. -/
def encodeBitFresh (s : ThreeBitProtocolEncoder) (bit idleBits : Nat) : ThreeBitProtocolEncoder :=
  if bit = 0 then { s with currByte := s.currByte &&& 0xfe, bitPos := 2 + idleBits }
  else { s with bitPos := 1 + idleBits }

/-- Embeds `ThreeBitProtocolEncoder::encodeBit`.  The C++ recursion after a flush
always lands in the `bitPos == 0` branch, so it is inlined here as
`encodeBitFresh`.  `x &&& (255 ^^^ (mask &&& 255))` is the `uint8_t`
truncation of the C expression `x &= ~mask` (for `x < 256`). -/
def encodeBit (s : ThreeBitProtocolEncoder) (bit idleBits : Nat) : ThreeBitProtocolEncoder :=
  let s := if 10 ≤ s.bitPos then pushCurrByteIfNotEmpty s else s
  if s.bitPos = 0 then
    encodeBitFresh s bit idleBits
  else if bit = 0 then
    let newPos := s.bitPos + 2 + idleBits
    if 10 < newPos then encodeBitFresh (pushCurrByteIfNotEmpty s) bit idleBits
    else { s with currByte := s.currByte &&& (255 ^^^ ((3 <<< (s.bitPos - 1)) &&& 255)), bitPos := newPos }
  else
    let newPos := s.bitPos + 1 + idleBits
    if 10 < newPos then encodeBitFresh (pushCurrByteIfNotEmpty s) bit idleBits
    else { s with currByte := s.currByte &&& (255 ^^^ ((1 <<< (s.bitPos - 1)) &&& 255)), bitPos := newPos }

/-- Embeds `ThreeBitProtocolEncoder::encodeLongInternal`: 31 bits (LSB first) with
the intra-long idle, then the final bit with the inter-long idle. -/
def encodeLongInternal (s : ThreeBitProtocolEncoder) (longValue : Nat) : ThreeBitProtocolEncoder :=
  encodeBit ((List.range 31).foldl (fun st i => encodeBit st ((longValue >>> i) &&& 1) IntraLongIdleTime) s)
    ((longValue >>> 31) &&& 1) InterLongIdleTime

/-- Embeds `ThreeBitProtocolEncoder::encodeLong`. -/
def encodeLong (s : ThreeBitProtocolEncoder) (longValue : Nat) : ThreeBitProtocolEncoder :=
  pushCurrByteIfNotEmpty (encodeLongInternal s longValue)

/-- The loop body of `ThreeBitProtocolEncoder::encodeBytesAsLongs`: full
groups of four bytes are packed little-endian and encoded; a remainder of
1-3 bytes is packed with the missing high bytes left at zero and counted as
one additional long.  Returns the resulting state and the long count. -/
def encodeBytesLoop (s : ThreeBitProtocolEncoder) : List Nat → ThreeBitProtocolEncoder × Nat
  | b0 :: b1 :: b2 :: b3 :: rest =>
      let r := encodeBytesLoop (encodeLongInternal s (b0 ||| (b1 <<< 8) ||| (b2 <<< 16) ||| (b3 <<< 24))) rest
      (r.1, r.2 + 1)
  | [] => (s, 0)
  | [b0] => (encodeLongInternal s b0, 1)
  | [b0, b1] => (encodeLongInternal s (b0 ||| (b1 <<< 8)), 1)
  | [b0, b1, b2] => (encodeLongInternal s (b0 ||| (b1 <<< 8) ||| (b2 <<< 16)), 1)

/-- Embeds `ThreeBitProtocolEncoder::encodeBytesAsLongs`: the loop above followed
by the final `pushCurrByteIfNotEmpty`. -/
def encodeBytesAsLongs (s : ThreeBitProtocolEncoder) (bytes : List Nat) : ThreeBitProtocolEncoder × Nat :=
  let r := encodeBytesLoop s bytes
  (pushCurrByteIfNotEmpty r.1, r.2)

/-- Modelled from the spec wording: zero-pad a byte sequence at the end to
a multiple of four bytes. -/
def padToLongBoundary (bytes : List Nat) : List Nat :=
  bytes ++ List.replicate ((4 - bytes.length % 4) % 4) 0

/-- Modelled from the spec wording: pack groups of four bytes into 32-bit
words in little-endian order (a tail shorter than four bytes is dropped;
inputs are padded first). -/
def bytesToWordsLE : List Nat → List Nat
  | b0 :: b1 :: b2 :: b3 :: rest => (b0 ||| (b1 <<< 8) ||| (b2 <<< 16) ||| (b3 <<< 24)) :: bytesToWordsLE rest
  | _ => []

/-- Iterated encoding of the all-zero long (proof helper for the worst-case
buffer size). -/
def encodeZeroLongs : Nat → ThreeBitProtocolEncoder → ThreeBitProtocolEncoder
  | 0, s => s
  | n + 1, s => encodeZeroLongs n (encodeLongInternal s 0)

end ThreeBitProtocolEncoder

namespace APLoader

/-- The 3BP encoded command to shutdown (APLoaderInternal.hpp). -/
def EncodedShutdown : List Nat :=
  [0x92, 0x92, 0x92, 0x92, 0x92, 0x92, 0x92, 0x92, 0x92, 0x92, 0xF2]

/-- The 3BP encoded command to load the image into RAM and then run. -/
def EncodedLoadRAM : List Nat :=
  [0xC9, 0x92, 0x92, 0x92, 0x92, 0x92, 0x92, 0x92, 0x92, 0x92, 0xF2]

/-- The 3BP encoded command to program the EEPROM and then shutdown. -/
def EncodedProgramEEPROMThenShutdown : List Nat :=
  [0xCA, 0x92, 0x92, 0x92, 0x92, 0x92, 0x92, 0x92, 0x92, 0x92, 0xF2]

/-- The 3BP encoded command to program the EEPROM and then run. -/
def EncodedProgramEEPROMThenRun : List Nat :=
  [0x25, 0x92, 0x92, 0x92, 0x92, 0x92, 0x92, 0x92, 0x92, 0x92, 0xFE]

/-- The two failure modes of `APLoader::decode3BPByte` (both are
`std::runtime_error` in the source, with distinct messages). -/
inductive DecodeError
  | insufficientBytes
  | unexpectedByte (b : Nat)
deriving DecidableEq, Repr

/-- The `for (int i = 0; i < 4; ++i)` loop of `APLoader::decode3BPByte`:
first argument is the number of remaining iterations, second the
accumulator `decodedByte`, third the remaining input (the iterator).  On
success the decoded byte and the unconsumed input are returned. -/
def decode3BPLoop : Nat → Nat → List Nat → Except DecodeError (Nat × List Nat)
  | 0, acc, rest => Except.ok (acc, rest)
  | _ + 1, _, [] => Except.error DecodeError.insufficientBytes
  | i + 1, acc, b :: rest =>
      let d := acc >>> 2
      if b = 0xCE then decode3BPLoop i d rest
      else if b = 0xCF then decode3BPLoop i (d ||| 0x40) rest
      else if b = 0xEE then decode3BPLoop i (d ||| 0x80) rest
      else if b = 0xEF then decode3BPLoop i (d ||| 0xC0) rest
      else Except.error (DecodeError.unexpectedByte b)

/-- Embeds `APLoader::decode3BPByte`. -/
def decode3BPByte (input : List Nat) : Except DecodeError (Nat × List Nat) :=
  decode3BPLoop 4 0 input

/-- Modelled from the spec wording: the per-byte mapping
`0xCE → 00`, `0xCF → 01`, `0xEE → 10`, `0xEF → 11` (as a bit-pair value),
`none` for any other byte. -/
def pairVal (b : Nat) : Option Nat :=
  if b = 0xCE then some 0
  else if b = 0xCF then some 1
  else if b = 0xEE then some 2
  else if b = 0xEF then some 3
  else none

/-- The bit-pair value of a valid byte (zero default). -/
def pairValD (b : Nat) : Nat := (pairVal b).getD 0

/-- Modelled from the spec wording: the first problem hit when consuming up
to `n` bytes in order: running out of input gives `insufficientBytes`; a
byte outside the mapping gives `unexpectedByte`. -/
def firstProblem : Nat → List Nat → Option DecodeError
  | 0, _ => none
  | _ + 1, [] => some DecodeError.insufficientBytes
  | i + 1, b :: rest => if (pairVal b).isSome then firstProblem i rest else some (DecodeError.unexpectedByte b)

/-- Modelled from the spec wording of the decoder: consume four bytes; fail
with the first problem encountered; otherwise assemble the data byte from
the four bit pairs, least-significant pair first. -/
def decode3BPByteSpec (input : List Nat) : Except DecodeError (Nat × List Nat) :=
  match firstProblem 4 input with
  | some e => Except.error e
  | none =>
    match input with
    | b0 :: b1 :: b2 :: b3 :: rest =>
        Except.ok (pairValD b0 ||| (pairValD b1 <<< 2) ||| (pairValD b2 <<< 4) ||| (pairValD b3 <<< 6), rest)
    | _ => Except.error DecodeError.insufficientBytes

/-- The failure mode of `APLoader::verifyAndEncodeImage`
(`std::invalid_argument` in the source). -/
inductive ImageError
  | invalidImage
deriving DecidableEq, Repr

/-- Embeds `APLoader::verifyAndEncodeImage`: reject an empty image and an image
larger than 32768 bytes; otherwise construct a fresh encoder on the output
buffer (clearing it) and run `encodeBytesAsLongs`. -/
def verifyAndEncodeImage (image : List Nat) : Except ImageError (List Nat × Nat) :=
  if image.length = 0 then Except.error ImageError.invalidImage
  else if 32768 < image.length then Except.error ImageError.invalidImage
  else
    let r := ThreeBitProtocolEncoder.encodeBytesAsLongs ThreeBitProtocolEncoder.init image
    Except.ok (r.1.buffer, r.2)

/-- The failure mode of the validating setters (`std::invalid_argument`). -/
inductive SettingError
  | invalidArgument
deriving DecidableEq, Repr

/-- Embeds `AsyncPropLoader::MaxBaudrate`. -/
def MaxBaudrate : Nat := 115200

/-- Embeds `AsyncPropLoader::setBaudrate`: throws only when the argument exceeds
`MaxBaudrate`; otherwise the value is stored. -/
def setBaudrate (b : Nat) : Except SettingError Nat :=
  if MaxBaudrate < b then Except.error SettingError.invalidArgument
  else Except.ok b

/-- Embeds `AsyncPropLoader::setResetDuration` (`count()` of the `Milliseconds`
argument modelled as an integer): rejects durations below 1 ms or above
100 ms; otherwise the value is stored. -/
def setResetDuration (d : Int) : Except SettingError Int :=
  if d < 1 then Except.error SettingError.invalidArgument
  else if 100 < d then Except.error SettingError.invalidArgument
  else Except.ok d

/-- Embeds `AsyncPropLoader::setBootWaitDuration`: rejects durations above 150 ms
or below 50 ms; otherwise the value is stored. -/
def setBootWaitDuration (d : Int) : Except SettingError Int :=
  if 150 < d then Except.error SettingError.invalidArgument
  else if d < 50 then Except.error SettingError.invalidArgument
  else Except.ok d

/-- Embeds `APLoader::Action` (APLoaderDefs.hpp). -/
inductive Action
  | None
  | Shutdown
  | LoadRAM
  | ProgramEEPROMThenShutdown
  | ProgramEEPROMThenRun
  | Restart
deriving DecidableEq, Repr

/-- The stages of an action (the `a_stageN_*` functions of
AsyncPropLoader.cpp). -/
inductive Stage
  | stage1
  | stage2a
  | stage2b
  | stage3
  | stage4a
  | stage4b
  | stage5
  | stage6
  | stage7
deriving DecidableEq, Repr

/-- The stage sequencing of `AsyncPropLoader::a_performAction`: the trace
of stage calls made by a successful action (a plain `return` after a stage
finishes the action successfully; each early `return` in the source is an
`if action = ...` cut here). -/
def a_performActionStages (action : Action) : List Stage :=
  [Stage.stage1, Stage.stage2a] ++
    (if action = Action.Restart then [] else
      [Stage.stage2b, Stage.stage3, Stage.stage4a] ++
        (if action = Action.Shutdown then [] else
          [Stage.stage4b, Stage.stage5] ++
            (if action = Action.LoadRAM then [] else
              [Stage.stage6, Stage.stage7])))

/-- Embeds `APLoader::ErrorCode` (APLoaderDefs.hpp). -/
inductive ErrorCode
  | None
  | Cancelled
  | FailedToObtainPortAccess
  | FailedToOpenPort
  | FailedToFlushOutput
  | FailedToSetBaudrate
  | FailedToSetTimeout
  | FailedToSetBytesize
  | FailedToSetParity
  | FailedToSetStopbits
  | FailedToSetFlowcontrol
  | FailedToReset
  | FailedToFlushInput
  | FailedToSendInitialBytes
  | FailedToReceivePropAuthentication
  | FailedToAuthenticateProp
  | FailedToReceiveChipVersion
  | FailedToDecodeChipVersion
  | UnsupportedChipVersion
  | FailedToSendCommand
  | FailedToEncodeImageSize
  | FailedToSendImageSize
  | FailedToSendImage
  | FailedToSendStatusPrompt
  | FailedToReceiveChecksumStatus
  | PropReportsChecksumError
  | FailedToReceiveEEPROMProgrammingStatus
  | PropReportsEEPROMProgrammingError
  | FailedToReceiveEEPROMVerificationStatus
  | PropReportsEEPROMVerificationError
  | UnhandledException
deriving DecidableEq, Repr

/-- The status-poll loop of `AsyncPropLoader::a_receiveStatus`.  Each list
entry is the `available()`/`read` outcome of one loop iteration: `none` means no
byte was available (the loop sends another 0x29 prompt and continues);
`some b` means a byte was available and `read` returned `b`, which is
classified: `0xff` is status 1 (failure, returned as `true`), `0xfe` is
status 0 (success, returned as `false`), anything else fails with the
stage error `potentialError`.  An exhausted list is the timeout expiring, which
also fails with `potentialError`. -/
def a_receiveStatus (potentialError : ErrorCode) : List (Option Nat) → Except ErrorCode Bool
  | [] => Except.error potentialError
  | none :: rest => a_receiveStatus potentialError rest
  | some b :: _ =>
      if b = 0xff then Except.ok true
      else if b = 0xfe then Except.ok false
      else Except.error potentialError

/-- `AsyncPropLoader::a_stage5_waitForChecksumStatus`: receive the checksum
status with `potentialError = FailedToReceiveChecksumStatus`; a failure
status (`true`) aborts the action with `PropReportsChecksumError`. -/
def a_stage5_waitForChecksumStatus (polls : List (Option Nat)) : Except ErrorCode Unit :=
  match a_receiveStatus ErrorCode.FailedToReceiveChecksumStatus polls with
  | Except.error e => Except.error e
  | Except.ok true => Except.error ErrorCode.PropReportsChecksumError
  | Except.ok false => Except.ok ()

/-- Fuel-driven base-2 logarithm (`log2Aux fuel n = ⌊log2 n⌋` for
`1 ≤ n < 2 ^ fuel`). -/
def log2Aux : Nat → Nat → Nat
  | 0, _ => 0
  | fuel + 1, n => if n ≤ 1 then 0 else log2Aux fuel (n / 2) + 1

/-- Floor base-2 logarithm for `1 ≤ n < 2 ^ 64` (0 for `n = 0`). -/
def natLog2 (n : Nat) : Nat := log2Aux 64 n

/-- Round the nonnegative rational `a / b` to the nearest integer, ties to
even. -/
def roundHalfEvenN (a b : Nat) : Nat :=
  let q := a / b
  let r := a % b
  if 2 * r < b then q
  else if b < 2 * r then q + 1
  else if q % 2 = 0 then q else q + 1

/-- IEEE-754 binary32 round-to-nearest-even of the nonnegative rational
`a / b`, returned as an unreduced fraction.  The significand grid has 24
bits: the value is scaled so that it lies in `[2^23, 2^24)`, rounded to the
nearest integer (ties to even) and scaled back.  This is exact binary32
rounding for values in `[1, 2^64)`, which covers every value occurring in
`a_transitDuration` for the argument ranges of interest (no overflow, no
subnormals). -/
def round32N (a b : Nat) : Nat × Nat :=
  let L := natLog2 (a / b)
  if 23 ≤ L then
    (roundHalfEvenN a (b * 2 ^ (L - 23)) * 2 ^ (L - 23), 1)
  else
    (roundHalfEvenN (a * 2 ^ (23 - L)) b, 2 ^ (23 - L))

/-- Embeds `AsyncPropLoader::a_transitDuration`:
`long long n = numBytes * 10000000.0f / a_baudrate; if (n < 1) n = 1;`.
The source computes the expression in binary32 float: `numBytes` is
converted to float, multiplied by the exactly representable literal
`10000000.0f` (rounding the product), divided by the float conversion of
`a_baudrate` (rounding the quotient), and the result is truncated to
`long long` (truncation = floor for these nonnegative values).  Returns the
microsecond count. -/
def a_transitDuration (numBytes : Nat) (a_baudrate : Nat) : Int :=
  let x := round32N numBytes 1
  let p := round32N (x.1 * 10000000) x.2
  let y := round32N a_baudrate 1
  let q := round32N (p.1 * y.2) (p.2 * y.1)
  let n : Int := (q.1 / q.2 : Nat)
  if n < 1 then 1 else n

end APLoader

namespace ThreeBitProtocolEncoder

/-- Claim C1: running `encodeLong` on a fresh encoder with an empty buffer
produces, for command words 0, 1, 2, 3, exactly the fixed 11-byte tables
`EncodedShutdown`, `EncodedLoadRAM`, `EncodedProgramEEPROMThenShutdown`
and `EncodedProgramEEPROMThenRun` (terminators 0xF2, 0xF2, 0xF2, 0xFE). -/
theorem encodeLong_fixed_command_tables :
    (encodeLong init 0).buffer = APLoader.EncodedShutdown ∧
    (encodeLong init 1).buffer = APLoader.EncodedLoadRAM ∧
    (encodeLong init 2).buffer = APLoader.EncodedProgramEEPROMThenShutdown ∧
    (encodeLong init 3).buffer = APLoader.EncodedProgramEEPROMThenRun := by
  decide

/-- Claim C10: `encodeBytesAsLongs` on the empty byte list returns a long
count of 0 and leaves the state exactly as constructed: the buffer stays
empty and the untouched empty current byte (`bitPos = 0`,
`currByte = 0xff`) is never pushed. -/
theorem encodeBytesAsLongs_nil :
    encodeBytesAsLongs init [] = (init, 0) := by
  decide

end ThreeBitProtocolEncoder

namespace APLoader

/-- Claim C7: for every started action the stages run in the order 1, 2a,
2b, 3, 4a, 4b, 5, 6, 7, with the action finishing successfully early
according to its kind: `Restart` after stage 2a, `Shutdown` after stage 4a,
`LoadRAM` after stage 5, and the two EEPROM actions run all stages through
stage 7. -/
theorem a_performActionStages_order :
    a_performActionStages Action.Restart = [Stage.stage1, Stage.stage2a] ∧
    a_performActionStages Action.Shutdown =
      [Stage.stage1, Stage.stage2a, Stage.stage2b, Stage.stage3, Stage.stage4a] ∧
    a_performActionStages Action.LoadRAM =
      [Stage.stage1, Stage.stage2a, Stage.stage2b, Stage.stage3, Stage.stage4a,
        Stage.stage4b, Stage.stage5] ∧
    a_performActionStages Action.ProgramEEPROMThenShutdown =
      [Stage.stage1, Stage.stage2a, Stage.stage2b, Stage.stage3, Stage.stage4a,
        Stage.stage4b, Stage.stage5, Stage.stage6, Stage.stage7] ∧
    a_performActionStages Action.ProgramEEPROMThenRun =
      [Stage.stage1, Stage.stage2a, Stage.stage2b, Stage.stage3, Stage.stage4a,
        Stage.stage4b, Stage.stage5, Stage.stage6, Stage.stage7] := by
  decide

/-- Counterexample to claim C6: `setBaudrate` does not reject every value
outside [1, 115200]: the argument 0 is outside that interval yet it is
accepted and stored (the source only checks the upper bound). -/
theorem setBaudrate_zero_accepted :
    setBaudrate 0 = Except.ok 0 ∧ ¬ (1 : Nat) ≤ 0 :=
  ⟨rfl, by decide⟩

/-- Claim C6 (amended): `setBaudrate` rejects exactly the values exceeding
115200 (in particular 0 is accepted and stored); `setResetDuration` stores
exactly the durations in [1, 100] ms and rejects the rest with
`InvalidArgument`; `setBootWaitDuration` stores exactly the durations in
[50, 150] ms and rejects the rest with `InvalidArgument`. -/
theorem setters_validation (b : Nat) (d w : Int) :
    (setBaudrate b = Except.error SettingError.invalidArgument ↔ 115200 < b) ∧
    (setBaudrate b = Except.ok b ↔ b ≤ 115200) ∧
    (setResetDuration d = Except.error SettingError.invalidArgument ↔ (d < 1 ∨ 100 < d)) ∧
    (setResetDuration d = Except.ok d ↔ (1 ≤ d ∧ d ≤ 100)) ∧
    (setBootWaitDuration w = Except.error SettingError.invalidArgument ↔ (w < 50 ∨ 150 < w)) ∧
    (setBootWaitDuration w = Except.ok w ↔ (50 ≤ w ∧ w ≤ 150)) := by
  unfold setBaudrate setResetDuration setBootWaitDuration MaxBaudrate
  refine ⟨?_, ?_, ?_, ?_, ?_, ?_⟩ <;> split_ifs <;> simp_all

/-- Poll iterations with no byte available only continue the loop. -/
theorem a_receiveStatus_skip_none (e : ErrorCode) (n : Nat) (polls : List (Option Nat)) :
    a_receiveStatus e (List.replicate n none ++ polls) = a_receiveStatus e polls := by
  induction n with
  | zero => simp
  | succ n ih => simpa [List.replicate_succ, a_receiveStatus] using ih

/-- Claim C8: whenever the status poll reads a status byte (the first
available byte after any number of empty polls), it reports success
exactly for 0xFE and failure exactly for 0xFF; any other byte makes the
poll fail with the receive error code of the stage; and in stage 5 a failure
status aborts the action with `PropReportsChecksumError` while a success
status lets it continue. -/
theorem a_receiveStatus_classification (e : ErrorCode) (n b : Nat) (rest : List (Option Nat)) :
    (a_receiveStatus e (List.replicate n none ++ some b :: rest) =
      if b = 0xff then Except.ok true
      else if b = 0xfe then Except.ok false
      else Except.error e) ∧
    (a_stage5_waitForChecksumStatus (List.replicate n none ++ some 0xff :: rest) =
      Except.error ErrorCode.PropReportsChecksumError) ∧
    (a_stage5_waitForChecksumStatus (List.replicate n none ++ some 0xfe :: rest) =
      Except.ok ()) := by
  refine ⟨?_, ?_, ?_⟩ <;>
    simp [a_stage5_waitForChecksumStatus, a_receiveStatus_skip_none, a_receiveStatus]

/-- A valid 3BP response byte decodes to a bit-pair value of at most 3. -/
theorem pairVal_le_3 {b q : Nat} (h : pairVal b = some q) : q ≤ 3 := by
  unfold pairVal at h
  split_ifs at h <;>
    first
    | (injection h with h; omega)
    | exact Option.noConfusion h

/-- A loop iteration with an exhausted iterator fails. -/
theorem decode3BPLoop_nil (i acc : Nat) :
    decode3BPLoop (i + 1) acc [] = Except.error DecodeError.insufficientBytes := rfl

/-- A finished loop returns the accumulator and the unconsumed input. -/
theorem decode3BPLoop_zero (acc : Nat) (rest : List Nat) :
    decode3BPLoop 0 acc rest = Except.ok (acc, rest) := rfl

/-- One iteration of the decoder loop, phrased through `pairVal`. -/
theorem decode3BPLoop_cons (i acc b : Nat) (rest : List Nat) :
    decode3BPLoop (i + 1) acc (b :: rest) =
      (match pairVal b with
      | none => Except.error (DecodeError.unexpectedByte b)
      | some q => decode3BPLoop i ((acc >>> 2) ||| (q <<< 6)) rest) := by
  rcases hb : pairVal b with _ | q
  · unfold pairVal at hb
    split_ifs at hb <;> simp_all [decode3BPLoop]
  · unfold pairVal at hb
    split_ifs at hb <;>
      first
      | (injection hb with hb; subst hb; simp_all [decode3BPLoop])
      | exact Option.noConfusion hb

/-- Claim C4: `decode3BPByte` consumes exactly four input bytes and returns
the data byte whose four bit pairs, least-significant pair first, are given
by the per-byte mapping 0xCE→00, 0xCF→01, 0xEE→10, 0xEF→11; it fails
exactly when the input ends before four bytes are consumed (insufficient
bytes) or when a consumed byte is outside {0xCE, 0xCF, 0xEE, 0xEF}
(unexpected byte), whichever problem comes first. -/
theorem decode3BPByte_matches_spec (input : List Nat) :
    decode3BPByte input = decode3BPByteSpec input := by
  rcases input with _ | ⟨b0, _ | ⟨b1, _ | ⟨b2, _ | ⟨b3, rest⟩⟩⟩⟩
  · rfl
  · rcases h0 : pairVal b0 with _ | q0 <;>
      simp [decode3BPByte, decode3BPByteSpec, firstProblem, decode3BPLoop_cons,
        decode3BPLoop_nil, h0]
  · rcases h0 : pairVal b0 with _ | q0 <;> rcases h1 : pairVal b1 with _ | q1 <;>
      simp [decode3BPByte, decode3BPByteSpec, firstProblem, decode3BPLoop_cons,
        decode3BPLoop_nil, h0, h1]
  · rcases h0 : pairVal b0 with _ | q0 <;> rcases h1 : pairVal b1 with _ | q1 <;>
      rcases h2 : pairVal b2 with _ | q2 <;>
      simp [decode3BPByte, decode3BPByteSpec, firstProblem, decode3BPLoop_cons,
        decode3BPLoop_nil, h0, h1, h2]
  · rcases h0 : pairVal b0 with _ | q0 <;> rcases h1 : pairVal b1 with _ | q1 <;>
      rcases h2 : pairVal b2 with _ | q2 <;> rcases h3 : pairVal b3 with _ | q3 <;>
      simp [decode3BPByte, decode3BPByteSpec, firstProblem, decode3BPLoop_cons,
        decode3BPLoop_nil, decode3BPLoop_zero, h0, h1, h2, h3, pairValD]
    have l0 := pairVal_le_3 h0
    have l1 := pairVal_le_3 h1
    have l2 := pairVal_le_3 h2
    have l3 := pairVal_le_3 h3
    interval_cases q0 <;> interval_cases q1 <;> interval_cases q2 <;> interval_cases q3 <;> decide

end APLoader

/-- Induction on a list peeling four elements at a time (the grouping used
by `encodeBytesAsLongs`). -/
theorem list4_induction {α : Type} {P : List α → Prop} (h0 : P [])
    (h1 : ∀ b0, P [b0]) (h2 : ∀ b0 b1, P [b0, b1]) (h3 : ∀ b0 b1 b2, P [b0, b1, b2])
    (h4 : ∀ b0 b1 b2 b3 rest, P rest → P (b0 :: b1 :: b2 :: b3 :: rest)) :
    ∀ l, P l := by
  have key : ∀ n l, List.length l ≤ n → P l := by
    intro n
    induction n with
    | zero =>
      intro l hl
      cases l with
      | nil => exact h0
      | cons a t => simp at hl
    | succ n ih =>
      intro l hl
      match l with
      | [] => exact h0
      | [b0] => exact h1 b0
      | [b0, b1] => exact h2 b0 b1
      | [b0, b1, b2] => exact h3 b0 b1 b2
      | b0 :: b1 :: b2 :: b3 :: rest =>
        refine h4 b0 b1 b2 b3 rest (ih rest ?_)
        simp only [List.length_cons] at hl
        omega
  intro l
  exact key l.length l le_rfl

namespace ThreeBitProtocolEncoder

/-- Zero-padding commutes with peeling a full group of four bytes. -/
theorem padToLongBoundary_cons4 (b0 b1 b2 b3 : Nat) (rest : List Nat) :
    padToLongBoundary (b0 :: b1 :: b2 :: b3 :: rest) =
      b0 :: b1 :: b2 :: b3 :: padToLongBoundary rest := by
  unfold padToLongBoundary
  simp only [List.length_cons, List.cons_append]
  have h : (4 - (rest.length + 1 + 1 + 1 + 1) % 4) % 4 = (4 - rest.length % 4) % 4 := by
    omega
  rw [h]

/-- The loop of `encodeBytesAsLongs` encodes exactly the little-endian
words of the zero-padded input and counts one long per word,
ceil(length / 4) in total. -/
theorem encodeBytesLoop_eq (bytes : List Nat) :
    ∀ s, encodeBytesLoop s bytes =
      (List.foldl encodeLongInternal s (bytesToWordsLE (padToLongBoundary bytes)),
        (bytes.length + 3) / 4) := by
  induction bytes using list4_induction with
  | h0 => intro s; rfl
  | h1 b0 =>
    intro s
    show (encodeLongInternal s b0, 1) = _
    simp [padToLongBoundary, bytesToWordsLE, List.replicate]
  | h2 b0 b1 =>
    intro s
    show (encodeLongInternal s (b0 ||| (b1 <<< 8)), 1) = _
    simp [padToLongBoundary, bytesToWordsLE, List.replicate]
  | h3 b0 b1 b2 =>
    intro s
    show (encodeLongInternal s (b0 ||| (b1 <<< 8) ||| (b2 <<< 16)), 1) = _
    simp [padToLongBoundary, bytesToWordsLE, List.replicate]
  | h4 b0 b1 b2 b3 rest ih =>
    intro s
    rw [padToLongBoundary_cons4]
    simp only [encodeBytesLoop, ih, bytesToWordsLE, List.foldl_cons, List.length_cons,
      Prod.mk.injEq]
    exact ⟨trivial, by omega⟩

/-- The implementation of `encodeBytesAsLongs` against the spec-side description:
encode the little-endian words of the zero-padded input, flush, and return
ceil(length / 4) longs.  (Shared helper for the claims about
`encodeBytesAsLongs` and `verifyAndEncodeImage`.) -/
theorem encodeBytesAsLongs_eq_spec (s : ThreeBitProtocolEncoder) (bytes : List Nat) :
    encodeBytesAsLongs s bytes =
      (pushCurrByteIfNotEmpty
        (List.foldl encodeLongInternal s (bytesToWordsLE (padToLongBoundary bytes))),
        (bytes.length + 3) / 4) := by
  unfold encodeBytesAsLongs
  rw [encodeBytesLoop_eq]

/-- Claim C2: for every byte sequence, `encodeBytesAsLongs` packs the
bytes into 32-bit words four at a time in little-endian order, zero-pads a
tail shorter than four bytes, encodes each word as a long (flushing the
current byte at the end), and returns the total long count
ceil(length / 4) including the padded tail. -/
theorem encodeBytesAsLongs_packs_padded_words (s : ThreeBitProtocolEncoder) (bytes : List Nat) :
    encodeBytesAsLongs s bytes =
      (pushCurrByteIfNotEmpty
        (List.foldl encodeLongInternal s (bytesToWordsLE (padToLongBoundary bytes))),
        (bytes.length + 3) / 4) :=
  encodeBytesAsLongs_eq_spec s bytes

end ThreeBitProtocolEncoder

namespace APLoader

open ThreeBitProtocolEncoder in
/-- Claim C5: `verifyAndEncodeImage` fails with the invalid-image error
exactly when the image length is 0 or greater than 32768; for every image
whose length is in [1, 32768] it succeeds, returning the 3BP encoding of
the zero-padded image (built into a freshly cleared buffer) together with
the long count ceil(length / 4). -/
theorem verifyAndEncodeImage_spec (image : List Nat) :
    verifyAndEncodeImage image =
      (if image.length = 0 ∨ 32768 < image.length then Except.error ImageError.invalidImage
      else Except.ok
        ((pushCurrByteIfNotEmpty
          (List.foldl encodeLongInternal init (bytesToWordsLE (padToLongBoundary image)))).buffer,
          (image.length + 3) / 4)) := by
  unfold verifyAndEncodeImage
  rw [encodeBytesAsLongs_eq_spec]
  split_ifs <;> simp_all <;> omega

end APLoader

namespace ThreeBitProtocolEncoder

/-- Flushing only appends to the buffer: its effect does not depend on the
bytes already there. -/
theorem pushCurrByteIfNotEmpty_frame (pre : List Nat) (s : ThreeBitProtocolEncoder) :
    pushCurrByteIfNotEmpty ⟨pre ++ s.buffer, s.bitPos, s.currByte⟩ =
      ⟨pre ++ (pushCurrByteIfNotEmpty s).buffer, (pushCurrByteIfNotEmpty s).bitPos,
        (pushCurrByteIfNotEmpty s).currByte⟩ := by
  obtain ⟨buf, p, c⟩ := s
  simp only [pushCurrByteIfNotEmpty]
  split_ifs <;> simp [List.append_assoc]

/-- `encodeBit` only appends to the buffer: its effect on `bitPos` and
`currByte`, and the bytes it emits, do not depend on the bytes already in
the buffer. -/
theorem encodeBit_frame (bit idleBits : Nat) (pre : List Nat) (s : ThreeBitProtocolEncoder) :
    encodeBit ⟨pre ++ s.buffer, s.bitPos, s.currByte⟩ bit idleBits =
      ⟨pre ++ (encodeBit s bit idleBits).buffer, (encodeBit s bit idleBits).bitPos,
        (encodeBit s bit idleBits).currByte⟩ := by
  obtain ⟨buf, p, c⟩ := s
  simp only [encodeBit, pushCurrByteIfNotEmpty, encodeBitFresh]
  split_ifs <;> simp_all [List.append_assoc]

/-- Left folds of `encodeBit` steps only append to the buffer. -/
theorem foldl_encodeBit_frame (v k : Nat) (l : List Nat) :
    ∀ (pre : List Nat) (s : ThreeBitProtocolEncoder),
      l.foldl (fun st i => encodeBit st ((v >>> i) &&& 1) k)
          ⟨pre ++ s.buffer, s.bitPos, s.currByte⟩ =
        ⟨pre ++ (l.foldl (fun st i => encodeBit st ((v >>> i) &&& 1) k) s).buffer,
          (l.foldl (fun st i => encodeBit st ((v >>> i) &&& 1) k) s).bitPos,
          (l.foldl (fun st i => encodeBit st ((v >>> i) &&& 1) k) s).currByte⟩ := by
  induction l with
  | nil => intro pre s; rfl
  | cons a t ih =>
    intro pre s
    simp only [List.foldl_cons]
    rw [encodeBit_frame ((v >>> a) &&& 1) k pre s]
    exact ih pre (encodeBit s ((v >>> a) &&& 1) k)

/-- `encodeLongInternal` only appends to the buffer. -/
theorem encodeLongInternal_frame (v : Nat) (pre : List Nat) (s : ThreeBitProtocolEncoder) :
    encodeLongInternal ⟨pre ++ s.buffer, s.bitPos, s.currByte⟩ v =
      ⟨pre ++ (encodeLongInternal s v).buffer, (encodeLongInternal s v).bitPos,
        (encodeLongInternal s v).currByte⟩ := by
  unfold encodeLongInternal
  rw [foldl_encodeBit_frame v IntraLongIdleTime (List.range 31) pre s]
  exact encodeBit_frame ((v >>> 31) &&& 1) InterLongIdleTime pre _

/-- Lift a concrete `encodeLongInternal` computation that starts on an
empty buffer to an arbitrary starting buffer. -/
theorem encodeLongInternal_zero_from {p c p' c' : Nat} {out : List Nat}
    (h : encodeLongInternal ⟨[], p, c⟩ 0 = ⟨out, p', c'⟩) (buf : List Nat) :
    encodeLongInternal ⟨buf, p, c⟩ 0 = ⟨buf ++ out, p', c'⟩ := by
  have hf := encodeLongInternal_frame 0 buf ⟨[], p, c⟩
  rw [h] at hf
  simpa using hf

/-- Encoding the all-zero long from a fresh frame emits ten 0x92 bytes and
leaves the state at slot 7 with current byte 0xF2. -/
theorem encodeZeroLong_fresh (buf : List Nat) :
    encodeLongInternal ⟨buf, 0, 255⟩ 0 = ⟨buf ++ List.replicate 10 146, 7, 242⟩ :=
  encodeLongInternal_zero_from (by decide) buf

/-- Encoding the all-zero long from state (7, 0xF2) emits 11 bytes and
leaves the state at slot 4 with current byte 0xFE. -/
theorem encodeZeroLong_from7 (buf : List Nat) :
    encodeLongInternal ⟨buf, 7, 242⟩ 0 = ⟨buf ++ (50 :: List.replicate 10 146), 4, 254⟩ :=
  encodeLongInternal_zero_from (by decide) buf

/-- Encoding the all-zero long from state (4, 0xFE) emits 10 bytes and
leaves the state at slot 10 with current byte 0x92. -/
theorem encodeZeroLong_from4 (buf : List Nat) :
    encodeLongInternal ⟨buf, 4, 254⟩ 0 = ⟨buf ++ (38 :: List.replicate 9 146), 10, 146⟩ :=
  encodeLongInternal_zero_from (by decide) buf

/-- Encoding the all-zero long from state (10, 0x92) emits 11 bytes and
returns the state to slot 7 with current byte 0xF2. -/
theorem encodeZeroLong_from10 (buf : List Nat) :
    encodeLongInternal ⟨buf, 10, 146⟩ 0 = ⟨buf ++ List.replicate 11 146, 7, 242⟩ :=
  encodeLongInternal_zero_from (by decide) buf

/-- Unfolding equations of `encodeZeroLongs`. -/
theorem encodeZeroLongs_zero (s : ThreeBitProtocolEncoder) : encodeZeroLongs 0 s = s := rfl

/-- One more zero long first encodes one long, then the rest. -/
theorem encodeZeroLongs_succ (n : Nat) (s : ThreeBitProtocolEncoder) :
    encodeZeroLongs (n + 1) s = encodeZeroLongs n (encodeLongInternal s 0) := rfl

/-- A single zero long is one `encodeLongInternal` call. -/
theorem encodeZeroLongs_one (s : ThreeBitProtocolEncoder) :
    encodeZeroLongs 1 s = encodeLongInternal s 0 := rfl

/-- Splitting an iterated zero-long encoding. -/
theorem encodeZeroLongs_add (m n : Nat) :
    ∀ s, encodeZeroLongs (m + n) s = encodeZeroLongs n (encodeZeroLongs m s) := by
  induction m with
  | zero => intro s; rw [Nat.zero_add]; rfl
  | succ m ih =>
    intro s
    have e : m + 1 + n = (m + n) + 1 := by omega
    rw [e]
    show encodeZeroLongs (m + n) (encodeLongInternal s 0) = _
    rw [ih (encodeLongInternal s 0)]
    rfl

/-- From state (7, 0xF2), three consecutive all-zero longs emit exactly 32
bytes and return the state to (7, 0xF2): the encoder state is periodic with
period three longs / 32 bytes. -/
theorem encodeZeroLongs_period (buf : List Nat) :
    encodeZeroLongs 3 ⟨buf, 7, 242⟩ =
      ⟨buf ++ ((50 :: List.replicate 10 146) ++ (38 :: List.replicate 9 146) ++
        List.replicate 11 146), 7, 242⟩ := by
  rw [encodeZeroLongs_succ, encodeZeroLong_from7 buf,
    encodeZeroLongs_succ, encodeZeroLong_from4,
    encodeZeroLongs_succ, encodeZeroLong_from10, encodeZeroLongs_zero]
  simp [List.append_assoc]

/-- Iterating the three-long period: `3 * m` zero longs from state
(7, 0xF2) emit exactly `32 * m` bytes and preserve the state. -/
theorem encodeZeroLongs_period_iter (m : Nat) :
    ∀ buf : List Nat, ∃ ext : List Nat,
      encodeZeroLongs (3 * m) ⟨buf, 7, 242⟩ = ⟨buf ++ ext, 7, 242⟩ ∧
        ext.length = 32 * m := by
  induction m with
  | zero =>
    intro buf
    refine ⟨[], ?_, by simp⟩
    show encodeZeroLongs 0 _ = _
    simp [encodeZeroLongs]
  | succ m ih =>
    intro buf
    have e : 3 * (m + 1) = 3 + 3 * m := by omega
    rw [e, encodeZeroLongs_add 3 (3 * m), encodeZeroLongs_period buf]
    obtain ⟨ext, h1, h2⟩ :=
      ih (buf ++ ((50 :: List.replicate 10 146) ++ (38 :: List.replicate 9 146) ++
        List.replicate 11 146))
    refine ⟨(50 :: List.replicate 10 146) ++ (38 :: List.replicate 9 146) ++
      List.replicate 11 146 ++ ext, ?_, ?_⟩
    · rw [h1]
      simp [List.append_assoc]
    · simp [h2]
      omega

/-- The loop of `encodeBytesAsLongs` on `4 * n` zero bytes encodes `n`
all-zero longs and returns a count of `n`. -/
theorem encodeBytesLoop_replicate_zero (n : Nat) :
    ∀ s, encodeBytesLoop s (List.replicate (4 * n) 0) = (encodeZeroLongs n s, n) := by
  induction n with
  | zero => intro s; rfl
  | succ n ih =>
    intro s
    have e : 4 * (n + 1) = 4 + 4 * n := by omega
    rw [e, List.replicate_add]
    show encodeBytesLoop s (0 :: 0 :: 0 :: 0 :: List.replicate (4 * n) 0) = _
    simp only [encodeBytesLoop, Nat.zero_shiftLeft, Nat.or_zero, ih]
    rfl

/-- Claim C3: `encodeBytesAsLongs` applied to a 32768-byte all-zero image
(the worst case) produces an encoded buffer of exactly 87382 bytes (and
8192 longs).  The buffer decomposes as 10 bytes for the first long, 2730
periods of 32 bytes for the next 8190 longs, 11 bytes for the final long,
and one flushed partial byte. -/
theorem encodeBytesAsLongs_worst_case :
    (encodeBytesAsLongs init (List.replicate 32768 0)).1.buffer.length = 87382 ∧
      (encodeBytesAsLongs init (List.replicate 32768 0)).2 = 8192 := by
  have h0 : List.replicate 32768 (0 : Nat) = List.replicate (4 * 8192) 0 := by norm_num
  unfold encodeBytesAsLongs
  rw [h0, encodeBytesLoop_replicate_zero 8192 init]
  have e : (8192 : Nat) = 1 + (3 * 2730 + 1) := by norm_num
  rw [e, encodeZeroLongs_add 1 (3 * 2730 + 1)]
  have h1 : encodeZeroLongs 1 init = ⟨List.replicate 10 146, 7, 242⟩ := by
    rw [encodeZeroLongs_one]
    have h := encodeZeroLong_fresh []
    simpa [init] using h
  rw [h1, encodeZeroLongs_add (3 * 2730) 1]
  obtain ⟨ext, h2, hlen⟩ := encodeZeroLongs_period_iter 2730 (List.replicate 10 146)
  rw [h2]
  have h3 : encodeZeroLongs 1 (⟨List.replicate 10 146 ++ ext, 7, 242⟩ : ThreeBitProtocolEncoder) =
      ⟨(List.replicate 10 146 ++ ext) ++ (50 :: List.replicate 10 146), 4, 254⟩ := by
    rw [encodeZeroLongs_one]
    exact encodeZeroLong_from7 _
  rw [h3]
  refine ⟨?_, rfl⟩
  simp [pushCurrByteIfNotEmpty, hlen]

end ThreeBitProtocolEncoder

namespace APLoader

/-- The function `log2Aux` computes the floor base-2 logarithm when given enough fuel. -/
theorem log2Aux_spec : ∀ (fuel n : Nat), 1 ≤ n → n < 2 ^ fuel →
    2 ^ log2Aux fuel n ≤ n ∧ n < 2 ^ (log2Aux fuel n + 1) := by
  intro fuel
  induction fuel with
  | zero =>
    intro n h1 h2
    simp at h2
    omega
  | succ fuel ih =>
    intro n h1 h2
    by_cases hn : n ≤ 1
    · have hone : n = 1 := by omega
      subst hone
      norm_num [log2Aux]
    · rw [pow_succ] at h2
      have h1' : 1 ≤ n / 2 := by omega
      have h2' : n / 2 < 2 ^ fuel := by omega
      obtain ⟨ihl, ihr⟩ := ih (n / 2) h1' h2'
      have hstep : log2Aux (fuel + 1) n = log2Aux fuel (n / 2) + 1 := by
        simp [log2Aux, hn]
      rw [hstep]
      have e1 : (2 : Nat) ^ (log2Aux fuel (n / 2) + 1) = 2 ^ log2Aux fuel (n / 2) * 2 :=
        pow_succ 2 _
      have e2 : (2 : Nat) ^ (log2Aux fuel (n / 2) + 1 + 1) = 2 ^ (log2Aux fuel (n / 2) + 1) * 2 :=
        pow_succ 2 _
      omega

/-- The function `natLog2` is the floor base-2 logarithm on `[1, 2^64)`. -/
theorem natLog2_spec (n : Nat) (h1 : 1 ≤ n) (h2 : n < 2 ^ 64) :
    2 ^ natLog2 n ≤ n ∧ n < 2 ^ (natLog2 n + 1) :=
  log2Aux_spec 64 n h1 h2

/-- The floor base-2 logarithm is determined by its sandwich property. -/
theorem natLog2_unique (n j : Nat) (h1 : 1 ≤ n) (h2 : n < 2 ^ 64)
    (hlo : 2 ^ j ≤ n) (hhi : n < 2 ^ (j + 1)) : natLog2 n = j := by
  obtain ⟨l, r⟩ := natLog2_spec n h1 h2
  by_contra hne
  rcases Nat.lt_or_ge (natLog2 n) j with h | h
  · have hle : 2 ^ (natLog2 n + 1) ≤ 2 ^ j := Nat.pow_le_pow_right (by norm_num) (by omega)
    omega
  · have hj : j + 1 ≤ natLog2 n := by omega
    have hle : 2 ^ (j + 1) ≤ 2 ^ natLog2 n := Nat.pow_le_pow_right (by norm_num) hj
    omega

/-- Round-to-nearest-even is exact on an exact quotient. -/
theorem roundHalfEvenN_exact (a b : Nat) (hb : 0 < b) (hdvd : b ∣ a) :
    roundHalfEvenN a b = a / b := by
  obtain ⟨c, rfl⟩ := hdvd
  unfold roundHalfEvenN
  simp [Nat.mul_mod_right, hb]

/-- binary32 rounding is exact on values of the form `m * 2 ^ k` with a
24-bit significand `m`: these are exactly representable, so `round32N`
returns the value unchanged. -/
theorem round32N_exact (a b m k : Nat) (hb : 0 < b) (hm : 0 < m) (hm24 : m < 2 ^ 24)
    (hbound : m * 2 ^ k < 2 ^ 64) (ha : a = m * 2 ^ k * b) :
    (round32N a b).1 = m * 2 ^ k * (round32N a b).2 ∧ 0 < (round32N a b).2 := by
  have hdiv : a / b = m * 2 ^ k := by rw [ha]; exact Nat.mul_div_cancel _ hb
  have hm64 : m < 2 ^ 64 :=
    lt_of_lt_of_le hm24 (Nat.pow_le_pow_right (by norm_num) (by norm_num))
  obtain ⟨hLml, hLmr⟩ := natLog2_spec m hm hm64
  have hLm23 : natLog2 m ≤ 23 := by
    by_contra hcon
    have hle : 2 ^ 24 ≤ 2 ^ natLog2 m := Nat.pow_le_pow_right (by norm_num) (by omega)
    omega
  have hval_lo : 2 ^ (natLog2 m + k) ≤ m * 2 ^ k := by
    rw [pow_add]
    exact Nat.mul_le_mul_right _ hLml
  have hval_hi : m * 2 ^ k < 2 ^ (natLog2 m + k + 1) := by
    have e : natLog2 m + k + 1 = (natLog2 m + 1) + k := by omega
    rw [e, pow_add]
    exact (Nat.mul_lt_mul_right (Nat.two_pow_pos k)).mpr hLmr
  have hpos : 1 ≤ m * 2 ^ k := Nat.mul_pos hm (Nat.two_pow_pos k)
  have hL : natLog2 (m * 2 ^ k) = natLog2 m + k :=
    natLog2_unique _ _ hpos hbound hval_lo hval_hi
  simp only [round32N, hdiv, hL]
  by_cases hcase : 23 ≤ natLog2 m + k
  · rw [if_pos hcase]
    have htk : natLog2 m + k - 23 ≤ k := by omega
    have e2 : (2 : Nat) ^ k = 2 ^ (k - (natLog2 m + k - 23)) * 2 ^ (natLog2 m + k - 23) := by
      rw [← pow_add]
      congr 1
      omega
    have he : a = (m * 2 ^ (k - (natLog2 m + k - 23))) * (b * 2 ^ (natLog2 m + k - 23)) := by
      rw [ha, e2]; ring
    have hbpos : 0 < b * 2 ^ (natLog2 m + k - 23) := Nat.mul_pos hb (Nat.two_pow_pos _)
    have hdvd2 : (b * 2 ^ (natLog2 m + k - 23)) ∣ a :=
      ⟨m * 2 ^ (k - (natLog2 m + k - 23)), by rw [he]; ring⟩
    rw [roundHalfEvenN_exact a _ hbpos hdvd2]
    have hq : a / (b * 2 ^ (natLog2 m + k - 23)) = m * 2 ^ (k - (natLog2 m + k - 23)) := by
      rw [he]
      exact Nat.mul_div_cancel _ hbpos
    rw [hq]
    refine ⟨?_, by norm_num⟩
    rw [mul_one, mul_assoc, ← pow_add]
    have e3 : k - (natLog2 m + k - 23) + (natLog2 m + k - 23) = k := by omega
    rw [e3]
  · rw [if_neg hcase]
    have he : a * 2 ^ (23 - natLog2 (m * 2 ^ k)) =
        (m * 2 ^ (k + (23 - natLog2 (m * 2 ^ k)))) * b := by
      rw [ha, pow_add]; ring
    have hdvd2 : b ∣ a * 2 ^ (23 - natLog2 (m * 2 ^ k)) :=
      ⟨m * 2 ^ (k + (23 - natLog2 (m * 2 ^ k))), by rw [he]; ring⟩
    rw [hL] at he
    have hrhe : roundHalfEvenN (a * 2 ^ (23 - (natLog2 m + k))) b =
        m * 2 ^ (k + (23 - (natLog2 m + k))) := by
      rw [roundHalfEvenN_exact _ _ hb (by rw [hL] at hdvd2; exact hdvd2), he]
      exact Nat.mul_div_cancel _ hb
    rw [hrhe]
    refine ⟨?_, Nat.two_pow_pos _⟩
    rw [mul_assoc, ← pow_add]

/-- Claim C9 (amended): the transit-duration computation is carried out in
IEEE-754 binary32 float arithmetic (`numBytes * 10000000.0f / a_baudrate`),
so the exact integer formula `max(1, n * 10000000 / b)` holds only when
every intermediate value is exactly representable.  That is the case for
every byte count `n` in [1, 214] (so that the product `n * 10^7` fits a
24-bit significand) and every baudrate `b` in [1, 115200] dividing `10^7`
(so that the quotient is exact); for such inputs the computation returns
exactly `max(1, n * 10000000 / b)` microseconds.  For other inputs the
result is the rounded binary32 value, which can differ (see the
counterexample at `n = 100`, `b = 7`). -/
theorem a_transitDuration_exact (n b : Nat) (h1 : 1 ≤ n) (h2 : n ≤ 214)
    (hdvd : b ∣ 10 ^ 7) (hble : b ≤ 115200) :
    a_transitDuration n b = ((max 1 (n * 10000000 / b) : Nat) : Int) := by
  have p24 : (2 : Nat) ^ 24 = 16777216 := by norm_num
  have p64 : (2 : Nat) ^ 64 = 18446744073709551616 := by norm_num
  have hbpos : 0 < b := Nat.pos_of_dvd_of_pos hdvd (by norm_num)
  -- decompose b into its 2-part and 5-part
  have h10 : (10 : Nat) ^ 7 = 2 ^ 7 * 5 ^ 7 := by norm_num
  rw [h10] at hdvd
  obtain ⟨b2, b5, hb2, hb5, hbeq⟩ := Nat.dvd_mul.mp hdvd
  obtain ⟨i, hi, hb2eq⟩ := (Nat.dvd_prime_pow Nat.prime_two).mp hb2
  obtain ⟨j, hj, hb5eq⟩ := (Nat.dvd_prime_pow (by norm_num : Nat.Prime 5)).mp hb5
  subst hb2eq
  subst hb5eq
  -- the exact quotient n * 10^7 / b, in representable form
  have hqb : (n * 5 ^ (7 - j)) * 2 ^ (7 - i) * b = n * 10000000 := by
    rw [← hbeq]
    have e2 : (2 : Nat) ^ (7 - i) * 2 ^ i = 2 ^ 7 := by
      rw [← pow_add]
      congr 1
      omega
    have e5 : (5 : Nat) ^ (7 - j) * 5 ^ j = 5 ^ 7 := by
      rw [← pow_add]
      congr 1
      omega
    calc n * 5 ^ (7 - j) * 2 ^ (7 - i) * (2 ^ i * 5 ^ j)
        = n * ((2 ^ (7 - i) * 2 ^ i) * (5 ^ (7 - j) * 5 ^ j)) := by ring
      _ = n * (2 ^ 7 * 5 ^ 7) := by rw [e2, e5]
      _ = n * 10000000 := by norm_num
  have h5le : (5 : Nat) ^ (7 - j) ≤ 78125 := by
    calc (5 : Nat) ^ (7 - j) ≤ 5 ^ 7 := Nat.pow_le_pow_right (by norm_num) (by omega)
      _ = 78125 := by norm_num
  have hm5pos : 0 < (5 : Nat) ^ (7 - j) := pow_pos (by norm_num) _
  have hmqle : n * 5 ^ (7 - j) ≤ 16718750 :=
    le_trans (Nat.mul_le_mul h2 h5le) (by norm_num)
  have hvle : (n * 5 ^ (7 - j)) * 2 ^ (7 - i) ≤ 2140000000 := by
    calc (n * 5 ^ (7 - j)) * 2 ^ (7 - i)
        ≤ (n * 5 ^ (7 - j)) * 2 ^ 7 :=
          Nat.mul_le_mul_left _ (Nat.pow_le_pow_right (by norm_num) (by omega))
      _ ≤ 16718750 * 2 ^ 7 := Nat.mul_le_mul_right _ hmqle
      _ ≤ 2140000000 := by norm_num
  -- step through the four float operations
  simp only [a_transitDuration]
  obtain ⟨hx1, hx2⟩ := round32N_exact n 1 n 0 (by norm_num) (by omega)
    (by omega) (by rw [pow_zero, mul_one, p64]; omega) (by ring)
  rw [pow_zero, mul_one] at hx1
  obtain ⟨hp1, hp2⟩ := round32N_exact ((round32N n 1).1 * 10000000) (round32N n 1).2
    (n * 78125) 7 hx2 (Nat.mul_pos (by omega) (by norm_num))
    (by omega)
    (by
      have e7 : (2 : Nat) ^ 7 = 128 := by norm_num
      rw [e7, p64]
      omega)
    (by rw [hx1]; ring)
  obtain ⟨hy1, hy2⟩ := round32N_exact b 1 b 0 (by norm_num) hbpos
    (by omega)
    (by rw [pow_zero, mul_one, p64]; omega)
    (by ring)
  rw [pow_zero, mul_one] at hy1
  have e78 : (n * 78125) * 2 ^ 7 = ((n * 5 ^ (7 - j)) * 2 ^ (7 - i)) * b := by
    have e1 : (n * 78125) * 2 ^ 7 = n * 10000000 := by
      have e0 : (78125 : Nat) * 2 ^ 7 = 10000000 := by norm_num
      calc (n * 78125) * 2 ^ 7 = n * (78125 * 2 ^ 7) := by ring
        _ = n * 10000000 := by rw [e0]
    rw [e1, ← hqb]
  have hq_arg : (round32N ((round32N n 1).1 * 10000000) (round32N n 1).2).1 *
      (round32N b 1).2 =
      ((n * 5 ^ (7 - j)) * 2 ^ (7 - i)) *
        ((round32N ((round32N n 1).1 * 10000000) (round32N n 1).2).2 * (round32N b 1).1) := by
    rw [hp1, hy1]
    calc (n * 78125) * 2 ^ 7 *
          (round32N ((round32N n 1).1 * 10000000) (round32N n 1).2).2 * (round32N b 1).2
        = ((n * 78125) * 2 ^ 7) *
            ((round32N ((round32N n 1).1 * 10000000) (round32N n 1).2).2 *
              (round32N b 1).2) := by ring
      _ = (((n * 5 ^ (7 - j)) * 2 ^ (7 - i)) * b) *
            ((round32N ((round32N n 1).1 * 10000000) (round32N n 1).2).2 *
              (round32N b 1).2) := by rw [e78]
      _ = _ := by ring
  obtain ⟨hq1, hq2⟩ := round32N_exact
    ((round32N ((round32N n 1).1 * 10000000) (round32N n 1).2).1 * (round32N b 1).2)
    ((round32N ((round32N n 1).1 * 10000000) (round32N n 1).2).2 * (round32N b 1).1)
    (n * 5 ^ (7 - j)) (7 - i)
    (Nat.mul_pos hp2 (by rw [hy1]; exact Nat.mul_pos hbpos hy2))
    (Nat.mul_pos h1 hm5pos)
    (by omega)
    (lt_of_le_of_lt hvle (by rw [p64]; omega))
    hq_arg
  rw [hq1, Nat.mul_div_cancel _ hq2]
  have hval_pos : 0 < (n * 5 ^ (7 - j)) * 2 ^ (7 - i) :=
    Nat.mul_pos (Nat.mul_pos h1 hm5pos) (pow_pos (by norm_num) _)
  have hifneg : ¬ (((((n * 5 ^ (7 - j)) * 2 ^ (7 - i)) : Nat) : Int) < 1) := by
    omega
  rw [if_neg hifneg]
  have hdivval : n * 10000000 / b = (n * 5 ^ (7 - j)) * 2 ^ (7 - i) :=
    Nat.div_eq_of_eq_mul_left hbpos hqb.symm
  rw [hdivval, Nat.max_eq_right (by omega : 1 ≤ (n * 5 ^ (7 - j)) * 2 ^ (7 - i))]

/-- Counterexample to claim C9: the transit-duration computation is done in
binary32 float, so the exact integer formula fails: for 100 bytes at
baudrate 7 (both within the ranges of the claim) the code returns 142857136
microseconds, while max(1, 100 * 10000000 / 7) = 142857142 (and even a
rounded-up reading of the division would give 142857143, not 142857136). -/
theorem a_transitDuration_float_deviation :
    a_transitDuration 100 7 = 142857136 ∧
      ((max 1 (100 * 10000000 / 7) : Nat) : Int) = 142857142 ∧
      a_transitDuration 100 7 ≠ ((max 1 (100 * 10000000 / 7) : Nat) : Int) := by
  refine ⟨by decide, by decide, by decide⟩

/-- Witness for the amended transit-duration claim at `n = 3`, `b = 4`. -/
theorem a_transitDuration_exact_witness :
    ((1 : Nat) ≤ 3 ∧ (3 : Nat) ≤ 214 ∧ (4 : Nat) ∣ 10 ^ 7 ∧ (4 : Nat) ≤ 115200) ∧
      a_transitDuration 3 4 = ((max 1 (3 * 10000000 / 4) : Nat) : Int) :=
  ⟨⟨by norm_num, by norm_num, by norm_num, by norm_num⟩,
    a_transitDuration_exact 3 4 (by norm_num) (by norm_num) (by norm_num) (by norm_num)⟩

end APLoader
